import Mathlib

/-!
Verification of the Mightstone-GPT EDHREC extraction engine.

This file shallowly embeds the extraction / normalization engine of the
repository (src/services/edhrec_complete.py, src/services/edhrec_service.py,
src/utils/edhrec_commander.py) and settles the frozen claims about it.

Modelling conventions:
  * Python JSON values (dict / list / str / int / float / bool / None) are the
    mutual inductive family Json / JsonList / JsonObj below.  JSON numbers are
    modelled as integers (float truncation `int(x)` is already applied); dicts
    are association lists with first-match lookup (Python dicts have unique
    keys, so this is faithful).
  * Python strings are Lean Strings; `str.lower()` is modelled as the ASCII
    lower-case map (the site data is ASCII); `str.strip()` strips the ASCII
    whitespace characters recognized by Python.
  * `re.match(r'^\d+\s+[A-Za-z]', s)` and the other anchored regexes used by
    the source are implemented directly as character-list scanners.
-/

/-! ## Python string primitives -/

/-- ASCII decimal digit, as matched by `\d` / `str.isdigit` on ASCII data. -/
def isDigitChar (c : Char) : Bool := '0' ≤ c && c ≤ '9'

/-- Whitespace characters recognized by Python's `\s` and `str.strip()`
(ASCII range): space, tab, newline, carriage return, vertical tab, form feed. -/
def isSpaceChar (c : Char) : Bool :=
  c = ' ' || c = '\t' || c = '\n' || c = '\r' || c = '\x0b' || c = '\x0c'

/-- ASCII letter, as matched by `[A-Za-z]`. -/
def isLetterChar (c : Char) : Bool :=
  ('A' ≤ c && c ≤ 'Z') || ('a' ≤ c && c ≤ 'z')

/-- ASCII lower-casing of one character (`str.lower()` on the ASCII data the
site produces); this is exactly core's `Char.toLower`. -/
def lowerChar (c : Char) : Char :=
  if 65 ≤ c.toNat ∧ c.toNat ≤ 90 then Char.ofNat (c.toNat + 32) else c

/-- `s.lower()` (ASCII model). -/
def pyLower (s : String) : String := String.mk (s.toList.map lowerChar)

/-- `str.strip()` on a character list: drop leading and trailing whitespace. -/
def stripChars (cs : List Char) : List Char :=
  ((cs.dropWhile isSpaceChar).reverse.dropWhile isSpaceChar).reverse

/-- `s.strip()`. -/
def pyStrip (s : String) : String := String.mk (stripChars s.toList)

/-- After the digits of `^\d+\s+[A-Za-z]`: one or more whitespace characters
then an ASCII letter. -/
def qtySpaces : List Char → Bool
  | [] => false
  | c :: rest => if isSpaceChar c then qtySpaces rest || isLetterMatch rest else false
where
  /-- the next character is an ASCII letter -/
  isLetterMatch : List Char → Bool
    | [] => false
    | c :: _ => isLetterChar c

/-- Remaining digits of `\d+` then `\s+[A-Za-z]`. -/
def qtyAfterFirstDigit : List Char → Bool
  | [] => false
  | c :: rest =>
    if isDigitChar c then qtyAfterFirstDigit rest
    else isSpaceChar c && (qtySpaces (c :: rest))

/-- `re.match(r'^\d+\s+[A-Za-z]', s)` as a Boolean: the string starts with one
or more digits, then one or more whitespace characters, then an ASCII letter. -/
def qtyAnnot (s : String) : Bool :=
  match s.toList with
  | [] => false
  | c :: rest => isDigitChar c && qtyAfterFirstDigit rest

/-! ## JSON values

`json.loads` produces nested dicts/lists; we model them as a mutual inductive
family so that structural induction over arrays and objects is direct. -/

mutual

inductive Json where
  | null : Json
  | boolean (b : Bool) : Json
  | num (n : Int) : Json
  | str (s : String) : Json
  | arr (xs : JsonList) : Json
  | obj (kvs : JsonObj) : Json
deriving DecidableEq

inductive JsonList where
  | nil : JsonList
  | cons (hd : Json) (tl : JsonList) : JsonList
deriving DecidableEq

inductive JsonObj where
  | nil : JsonObj
  | cons (k : String) (v : Json) (tl : JsonObj) : JsonObj
deriving DecidableEq

end

/-- `d.get(k)` — first-match association lookup (Python dict keys are unique). -/
def JsonObj.get : JsonObj → String → Option Json
  | .nil, _ => none
  | .cons k v tl, key => if k = key then some v else tl.get key

/-- The underlying Lean list of a JSON array. -/
def JsonList.toList : JsonList → List Json
  | .nil => []
  | .cons x xs => x :: xs.toList

/-- `all(isinstance(v, str) for v in xs)`. -/
def JsonList.allStrings : JsonList → Bool
  | .nil => true
  | .cons (.str _) xs => xs.allStrings
  | .cons _ _ => false

/-- Every element satisfies `p`. -/
def JsonList.allP (p : Json → Bool) : JsonList → Bool
  | .nil => true
  | .cons x xs => p x && xs.allP p

/-- Some element satisfies `p`. -/
def JsonList.anyP (p : Json → Bool) : JsonList → Bool
  | .nil => false
  | .cons x xs => p x || xs.anyP p

def JsonList.isNil : JsonList → Bool
  | .nil => true
  | .cons _ _ => false

/-! ## Deep Card Finder (edhrec_complete.deep_find_cards)

The Python walk tracks `id(node)` in `seen_ids` to guard against cyclic /
aliased payloads; `json.loads` output is a finite tree in which every node
occurrence is distinct, so the guard is inert and the walk is pure structural
recursion here. -/

/-- The `card`-fast-path of `is_card_like`:
`isinstance(item.get("card"), dict) and isinstance(item["card"].get("name"), str)`. -/
def cardNameFast (kvs : JsonObj) : Bool :=
  match kvs.get "card" with
  | some (.obj ckvs) =>
    match ckvs.get "name" with
    | some (.str _) => true
    | _ => false
  | _ => false

/-- First key in `keys` whose value in `kvs` is a string (the
`for name_key in (...)` loop of `is_card_like` stops at the first
string-valued key). -/
def firstStringVal (kvs : JsonObj) : List String → Option String
  | [] => none
  | k :: ks =>
    match kvs.get k with
    | some (.str s) => some s
    | _ => firstStringVal kvs ks

/-- `deep_find_cards.is_card_like`. -/
def isCardLike : Json → Bool
  | .str s =>
    let stripped := pyStrip s
    !(stripped = "") && !(qtyAnnot stripped)
  | .obj kvs =>
    if cardNameFast kvs then true
    else
      match firstStringVal kvs ["name", "cardName", "label", "sortname"] with
      | some s => !(qtyAnnot (pyStrip s))
      | none =>
        match kvs.get "names" with
        | some (.arr vs) => vs.allStrings
        | _ => false
  | _ => false

mutual

/-- `deep_find_cards.walk`: returns the recorded qualifying arrays
(`seen_lists`) in discovery order.  A non-empty array all of whose elements
are card-like is recorded whole and not recursed into. -/
def walk : Json → List JsonList
  | .arr xs => if !xs.isNil && xs.allP isCardLike then [xs] else walkList xs
  | .obj kvs => walkObj kvs
  | _ => []

/-- Recursion of `walk` into the elements of a non-qualifying array. -/
def walkList : JsonList → List JsonList
  | .nil => []
  | .cons x xs => walk x ++ walkList xs

/-- Recursion of `walk` into the values of an object. -/
def walkObj : JsonObj → List JsonList
  | .nil => []
  | .cons _ v tl => walk v ++ walkObj tl

end

/-- `deep_find_cards`: `None` when no qualifying array exists, otherwise the
concatenation of all recorded arrays. -/
def deepFindCards (j : Json) : Option (List Json) :=
  let ls := walk j
  if ls.isEmpty then none else some ((ls.map JsonList.toList).flatten)

/-! ## Card Normalizer (edhrec_complete._normalize_card_entry) -/

/-- `_coerce_int`. -/
def coerceInt : Json → Option Int
  | .boolean _ => none
  | .num n => some n
  | .str s =>
    let t := pyStrip s
    if t ≠ "" && t.toList.all isDigitChar then
      some (Int.ofNat (t.toList.foldl (fun acc c => acc * 10 + (c.toNat - 48)) 0))
    else none
  | _ => none

/-- Lookup in `source = {**entry, **entry["card"]}` (when `entry["card"]` is a
dict): the card sub-object's value wins, else the entry's own value. -/
def sourceGet (kvs : JsonObj) (key : String) : Option Json :=
  match kvs.get "card" with
  | some (.obj ckvs) =>
    match ckvs.get key with
    | some v => some v
    | none => kvs.get key
  | _ => kvs.get key

/-- Outcome of the name-key loop of `_normalize_card_entry`. -/
inductive NameSearch where
  | found (name : String)
  | rejected
  | missing
deriving DecidableEq

/-- The name-key loop of `_normalize_card_entry`: the first key whose value is
a string with non-empty strip decides — rejection if it matches the
quantity-annotation pattern, otherwise the stripped name. -/
def findEntryName (kvs : JsonObj) : List String → NameSearch
  | [] => .missing
  | k :: ks =>
    match sourceGet kvs k with
    | some (.str s) =>
      if pyStrip s ≠ "" then
        if qtyAnnot (pyStrip s) then .rejected else .found (pyStrip s)
      else findEntryName kvs ks
    | _ => findEntryName kvs ks

/-- `[v.strip() for v in source["names"] if isinstance(v, str) and v.strip()]`. -/
def stripNames : JsonList → List String
  | .nil => []
  | .cons (.str s) tl =>
    if pyStrip s ≠ "" then pyStrip s :: stripNames tl else stripNames tl
  | .cons _ tl => stripNames tl

/-- The quantity loop: first key whose value coerces to an integer. -/
def firstQty (kvs : JsonObj) : List String → Option Int
  | [] => none
  | k :: ks =>
    match sourceGet kvs k with
    | some v =>
      match coerceInt v with
      | some n => some n
      | none => firstQty kvs ks
    | none => firstQty kvs ks

/-- The commander-flag loop: OR over the Boolean-valued flag keys. -/
def commanderFlag (kvs : JsonObj) : Bool :=
  ["isCommander", "is_commander", "commander"].foldl
    (fun acc k =>
      match sourceGet kvs k with
      | some (.boolean b) => acc || b
      | _ => acc)
    false

/-- `_NormalizedCard`. -/
structure NCard where
  name : String
  qty : Int
  isCommander : Bool
deriving DecidableEq, Repr

/-- Quantity and commander-flag extraction shared by both name paths of
`_normalize_card_entry`. -/
def mkEntry (kvs : JsonObj) (name : String) : NCard :=
  let qty := (firstQty kvs ["qty", "quantity", "count", "copies", "amount", "q"]).getD 1
  ⟨name, max 1 qty, commanderFlag kvs⟩

/-- `_normalize_card_entry`. -/
def normalizeCardEntry : Json → Option NCard
  | .str s =>
    let name := pyStrip s
    if name = "" then none
    else if qtyAnnot name then none
    else some ⟨name, 1, false⟩
  | .obj kvs =>
    match findEntryName kvs ["name", "cardName", "card_name", "label", "title"] with
    | .rejected => none
    | .found name => some (mkEntry kvs name)
    | .missing =>
      match sourceGet kvs "names" with
      | some (.arr vs) =>
        let names := stripNames vs
        if names.isEmpty then none
        else some (mkEntry kvs (String.intercalate " // " names))
      | _ => none
  | _ => none

/-! ## Merge and partition (fetch_average_deck, lines 318–346) -/

/-- The merge identity key: `card.name.lower()`. -/
def cardKey (c : NCard) : String := pyLower c.name

/-- One step of the `combined` OrderedDict loop: update in place when the key
is present (sum quantities, OR commander flags), else append. -/
def insertCard (acc : List NCard) (c : NCard) : List NCard :=
  if acc.any (fun d => cardKey d == cardKey c) then
    acc.map (fun d =>
      if cardKey d = cardKey c then
        { d with qty := d.qty + c.qty, isCommander := d.isCommander || c.isCommander }
      else d)
  else acc ++ [c]

/-- The dedup loop over the normalized entries. -/
def mergeCards (cards : List NCard) : List NCard := cards.foldl insertCard []

/-- Commander / deck split: `commander_cards[0]` (if any) and all entries whose
flag is false. -/
def partitionDeck (cards : List NCard) : Option NCard × List NCard :=
  ((cards.filter (fun c => c.isCommander)).head?,
   cards.filter (fun c => !c.isCommander))

/-! ## Bracket alias normalization (edhrec_service.EDHRECService._normalize_bracket) -/

/-- The character map of `s.replace("-", "/")`. -/
def dashSlash (c : Char) : Char := if c = '-' then '/' else c

/-- `s.replace("-", "/")` (single-character replacement). -/
def replaceDash (s : String) : String :=
  String.mk (s.toList.map dashSlash)

/-- The `bracket_map` alias table. -/
def bracketMap : List (String × String) :=
  [("precon", "exhibition"), ("average", ""), ("all", ""), ("default", ""),
   ("1", "exhibition"), ("2", "core"), ("3", "upgraded"), ("4", "optimized"),
   ("5", "cedh")]

/-- `dict.get(key, default)` on the alias table (unique keys). -/
def assocGet : List (String × String) → String → Option String
  | [], _ => none
  | (k, v) :: tl, key => if k = key then some v else assocGet tl key

/-- `_normalize_bracket`. -/
def normalizeBracket (bracket : String) : String :=
  let normalized := replaceDash (pyLower bracket)
  (assocGet bracketMap normalized).getD normalized

/-! ## Bracket Discovery (edhrec_service.EDHRECService._find_average_deck_url)

The deck links come from
`re.findall(r'href="(/average-decks/[a-z0-9\-]+(?:/[a-z0-9\-]+){0,2})"', html)`
after order-preserving deduplication, so each is a slug plus at most two
further path segments; a link is modelled by those components. -/

def edhrecBase : String := "https://edhrec.com"

structure DeckLink where
  slug : String
  parts : List String
deriving DecidableEq, Repr

/-- The path text of a discovered link. -/
def linkPath (l : DeckLink) : String :=
  "/average-decks/" ++ l.slug ++ String.join (l.parts.map (fun p => "/" ++ p))

/-- `f"{self.base_url}{link}"`. -/
def deckUrl (l : DeckLink) : String := edhrecBase ++ linkPath l

/-- `link_bracket = "/".join(bracket_parts)` — the joined trailing segments,
the empty string for a bare link. -/
def linkBracket (l : DeckLink) : String := String.intercalate "/" l.parts

/-- The token recorded into `available_brackets`:
`link_bracket or "all"`. -/
def impliedToken (l : DeckLink) : String :=
  if linkBracket l = "" then "all" else linkBracket l

/-- `available_brackets.add(t)` (insertion-ordered set model). -/
def addToken (avail : List String) (t : String) : List String :=
  if t ∈ avail then avail else avail ++ [t]

/-- The link loop of `_find_average_deck_url`: accumulates implied tokens and
returns early (with the tokens accumulated so far) on the first link whose
joined trailing segments equal the normalized bracket. -/
def findGo (norm : String) : List DeckLink → List String →
    Option (String × List String) × List String
  | [], avail => (none, avail)
  | l :: ls, avail =>
    let avail2 := addToken avail (impliedToken l)
    if linkBracket l = norm then (some (deckUrl l, avail2), avail2)
    else findGo norm ls avail2

/-- `_find_average_deck_url` restricted to its link-matching core: given the
deduplicated links of the commander page and the requested bracket, produce
the chosen URL and the `available_brackets` set. -/
def findAverageDeckUrl (links : List DeckLink) (bracket : String) :
    Option String × List String :=
  match links with
  | [] => (none, [])
  | first :: _ =>
    match findGo (normalizeBracket bracket) links [] with
    | (some (u, av), _) => (some u, av)
    | (none, av) => (some (deckUrl first), av)

/-! ## Payload Locators (edhrec_complete._find_next_data and the
`__NEXT_DATA__` search of edhrec_service._parse_average_deck)

The HTML is modelled by the parts those functions inspect: the `<script>`
elements (id attribute and text content) that `BeautifulSoup` would produce,
and the first `__NEXT_DATA__ = {...};` inline-assignment match of
`re.search(r'__NEXT_DATA__\s*=\s*(\{.*?\});', html, re.DOTALL)` over the raw
text.  A script element of the form
`<script id="__NEXT_DATA__" ...>{...}</script>` contains no `=` after the
marker, so the regex does not match it, and conversely an inline assignment
carries no `id` attribute, so `soup.find("script", id="__NEXT_DATA__")` does
not find it.  `json.loads` is modelled by tagging embedded text as valid
(carrying its decoded value) or invalid. -/

/-- A piece of embedded text together with whether `json.loads` accepts it. -/
inductive JsonText where
  | valid (j : Json)
  | invalid (raw : String)
deriving DecidableEq

structure ScriptTag where
  id : Option String
  content : Option JsonText
deriving DecidableEq

structure HtmlPage where
  scripts : List ScriptTag
  inlineNextData : Option JsonText
deriving DecidableEq

inductive LocatorFailure where
  | parsingError (message : String) (url : String) (details : Option String)
  | valueError (message : String)
  | jsonDecodeError
deriving DecidableEq

/-- `_find_next_data` (edhrec_complete.py): first script element with
`id="__NEXT_DATA__"`; `EdhrecParsingError` when absent or without text, or
when its text is not valid JSON. -/
def findNextData (page : HtmlPage) (url : String) : Except LocatorFailure Json :=
  match page.scripts.find? (fun s => s.id == some "__NEXT_DATA__") with
  | none =>
    .error (.parsingError "Missing __NEXT_DATA__ payload" url
      (some "script id=__NEXT_DATA__"))
  | some s =>
    match s.content with
    | none =>
      .error (.parsingError "Missing __NEXT_DATA__ payload" url
        (some "script id=__NEXT_DATA__"))
    | some (.valid j) => .ok j
    | some (.invalid raw) =>
      .error (.parsingError "Invalid JSON in __NEXT_DATA__" url (some raw))

/-- The marker search of `_parse_average_deck` (edhrec_service.py): the inline
`__NEXT_DATA__ = {...};` assignment; `ValueError` when absent,
`json.JSONDecodeError` when its text is not valid JSON. -/
def locateInlineNextData (page : HtmlPage) : Except LocatorFailure Json :=
  match page.inlineNextData with
  | none => .error (.valueError "Could not find Next.js data in deck page")
  | some (.valid j) => .ok j
  | some (.invalid _) => .error .jsonDecodeError

/-! ## Fetcher retry loop (edhrec_complete._request_average_deck)

One `FetchOutcome` per issued GET: the outcome of attempt `i` is
`outcomes i`.  The result is paired with the number of GETs issued. -/

inductive FetchOutcome where
  | timeout
  | netError
  | response (status : Nat) (body : String)

inductive FetchFailure where
  | timeoutErr
  | networkErr
  | notFound
  | unexpected (status : Nat)
deriving DecidableEq, Repr

def RETRY_ATTEMPTS : Nat := 2

/-- The `for attempt in range(RETRY_ATTEMPTS + 1)` loop.  `r` is the number of
iterations left; `lastExc` is `last_exc`.  The `requests.Response.raise_for_status`
call raises exactly for statuses in `[400, 600)`; the `assert last_exc` after
the loop cannot fail (every final iteration either returns, raises, or sets
`last_exc`), so the `getD` default is unreachable. -/
def requestLoop (outcomes : Nat → FetchOutcome) :
    Nat → Nat → Option FetchFailure → Except FetchFailure String × Nat
  | _, 0, lastExc => (.error (lastExc.getD (.unexpected 0)), 0)
  | attempt, r + 1, lastExc =>
    match outcomes attempt with
    | .timeout =>
      let next := requestLoop outcomes (attempt + 1) r (some .timeoutErr)
      (next.1, next.2 + 1)
    | .netError =>
      let next := requestLoop outcomes (attempt + 1) r (some .networkErr)
      (next.1, next.2 + 1)
    | .response s b =>
      if s = 404 then (.error .notFound, 1)
      else if 500 ≤ s ∧ attempt < RETRY_ATTEMPTS then
        let next := requestLoop outcomes (attempt + 1) r lastExc
        (next.1, next.2 + 1)
      else if 400 ≤ s ∧ s < 600 then
        let next := requestLoop outcomes (attempt + 1) r (some (.unexpected s))
        (next.1, next.2 + 1)
      else (.ok b, 1)

/-- `_request_average_deck` (result, number of GETs issued). -/
def requestAverageDeck (outcomes : Nat → FetchOutcome) :
    Except FetchFailure String × Nat :=
  requestLoop outcomes 0 (RETRY_ATTEMPTS + 1) none

/-! ## Tag normalization (utils/edhrec_commander.py and the
`unique_tags` cap of fetch_commander_summary) -/

def MAX_TAG_LENGTH : Nat := 64

/-- `_STRUCTURAL_TAG_NAMES`. -/
def structuralTagNames : List String :=
  ["themes", "kindred", "new cards", "high synergy", "high synergy cards",
   "top cards", "game changers", "card types", "creatures", "spells",
   "enchantments", "artifacts", "instants", "sorceries", "planeswalkers",
   "battles", "lands", "utility lands", "mana artifacts", "utility artifacts"]

/-- `re.sub(r'^\d+\.\s*', '', cs)`: remove a leading ordinal such as `1. `. -/
def dropOrdinal (cs : List Char) : List Char :=
  let ds := cs.takeWhile isDigitChar
  let rest := cs.dropWhile isDigitChar
  if ds.isEmpty then cs
  else
    match rest with
    | [] => cs
    | c :: r2 => if c = '.' then r2.dropWhile isSpaceChar else cs

/-- `re.sub(r'\s+\(\d+\)$', '', cs)`: remove a trailing ` (123)` count. -/
def dropCount (cs : List Char) : List Char :=
  match cs.reverse with
  | [] => cs
  | c :: r1 =>
    if c = ')' then
      let ds := r1.takeWhile isDigitChar
      let r2 := r1.dropWhile isDigitChar
      if ds.isEmpty then cs
      else
        match r2 with
        | [] => cs
        | c2 :: r3 =>
          if c2 = '(' then
            if (r3.takeWhile isSpaceChar).isEmpty then cs
            else (r3.dropWhile isSpaceChar).reverse
          else cs
    else cs

/-- `normalize_commander_tag_name`. -/
def normalizeTagName (name : String) : Option String :=
  if name = "" then none
  else
    let n1 := stripChars name.toList
    let n2 := if n1.length > MAX_TAG_LENGTH then n1.take MAX_TAG_LENGTH else n1
    let n3 := dropCount (dropOrdinal n2)
    let n4 := stripChars n3
    if n4.isEmpty then none else some (String.mk n4)

/-- The accumulation loop of `normalize_commander_tags`; `seen` holds the
lower-cased names already emitted. -/
def normTagsGo (seen : List String) : List String → List String
  | [] => []
  | t :: ts =>
    match normalizeTagName t with
    | none => normTagsGo seen ts
    | some name =>
      if pyLower name ∈ seen ∨ pyLower name ∈ structuralTagNames then
        normTagsGo seen ts
      else name :: normTagsGo (pyLower name :: seen) ts

/-- `normalize_commander_tags`. -/
def normalizeCommanderTags (tags : List String) : List String := normTagsGo [] tags

/-- Accumulator form of `dict.fromkeys` deduplication: keep the first
occurrence of each string, in order; `seen` holds the strings already kept. -/
def dedupFirstAux (seen : List String) : List String → List String
  | [] => []
  | x :: xs =>
    if x ∈ seen then dedupFirstAux seen xs
    else x :: dedupFirstAux (x :: seen) xs

/-- `list(dict.fromkeys(l))`: order-preserving exact-string deduplication. -/
def dedupFirst (l : List String) : List String := dedupFirstAux [] l

/-- `unique_tags = list(dict.fromkeys(normalize_commander_tags(all_tags)))[:20]`
(fetch_commander_summary, lines 409–411). -/
def uniqueTags (raw : List String) : List String :=
  (dedupFirst (normalizeCommanderTags raw)).take 20

/-! ## Specification-side definitions used by the theorems -/

/-- First-seen dedup of a key sequence, relative to the keys already seen:
the order in which an OrderedDict keyed by these keys lists its entries. -/
def firstKeysFrom (seen : List String) : List String → List String
  | [] => []
  | k :: ks =>
    if k ∈ seen then firstKeysFrom seen ks
    else k :: firstKeysFrom (k :: seen) ks

mutual

/-- Every array anywhere inside the value has at least one element that is
not card-like (so no array can qualify). -/
def allArraysDisq : Json → Bool
  | .arr xs => xs.anyP (fun e => !isCardLike e) && allArraysDisqList xs
  | .obj kvs => allArraysDisqObj kvs
  | _ => true

/-- `allArraysDisq` over the elements of an array. -/
def allArraysDisqList : JsonList → Bool
  | .nil => true
  | .cons x xs => allArraysDisq x && allArraysDisqList xs

/-- `allArraysDisq` over the values of an object. -/
def allArraysDisqObj : JsonObj → Bool
  | .nil => true
  | .cons _ v tl => allArraysDisq v && allArraysDisqObj tl

end

/-! ## Character-level lemmas -/

theorem toNat_ofNat_of_valid {n : Nat} (h : n < 55296) : (Char.ofNat n).toNat = n := by
  have hv : n.isValidChar := Or.inl h
  simp [Char.ofNat, hv, Char.ofNatAux, Char.toNat, UInt32.toNat]

theorem lowerChar_toNat_of_upper {c : Char} (h : 65 ≤ c.toNat ∧ c.toNat ≤ 90) :
    (lowerChar c).toNat = c.toNat + 32 := by
  unfold lowerChar
  rw [if_pos h]
  exact toNat_ofNat_of_valid (by omega)

theorem lowerChar_eq_of_not_upper {c : Char} (h : ¬(65 ≤ c.toNat ∧ c.toNat ≤ 90)) :
    lowerChar c = c := by
  unfold lowerChar
  rw [if_neg h]

theorem lowerChar_idem (c : Char) : lowerChar (lowerChar c) = lowerChar c := by
  by_cases h : 65 ≤ c.toNat ∧ c.toNat ≤ 90
  · have h2 := lowerChar_toNat_of_upper h
    exact lowerChar_eq_of_not_upper (by omega)
  · rw [lowerChar_eq_of_not_upper h, lowerChar_eq_of_not_upper h]

theorem lrChar_idem (c : Char) :
    dashSlash (lowerChar (dashSlash (lowerChar c))) = dashSlash (lowerChar c) := by
  by_cases h : 65 ≤ c.toNat ∧ c.toNat ≤ 90
  · have h2 := lowerChar_toNat_of_upper h
    have hdash : lowerChar c ≠ '-' := by
      intro hEq
      have h45 : ('-').toNat = 45 := rfl
      rw [hEq, h45] at h2
      omega
    have hds : dashSlash (lowerChar c) = lowerChar c := by
      unfold dashSlash
      rw [if_neg hdash]
    rw [hds, lowerChar_eq_of_not_upper (by omega), hds]
  · rw [lowerChar_eq_of_not_upper h]
    by_cases hc : c = '-'
    · subst hc
      decide
    · have hds : dashSlash c = c := by
        unfold dashSlash
        rw [if_neg hc]
      rw [hds, lowerChar_eq_of_not_upper h, hds]

theorem lr_list (cs : List Char) :
    List.map dashSlash (List.map lowerChar (List.map dashSlash (List.map lowerChar cs)))
      = List.map dashSlash (List.map lowerChar cs) := by
  induction cs with
  | nil => rfl
  | cons c cs ih =>
    simp only [List.map_cons]
    rw [lrChar_idem c, ih]

theorem lr_idem (s : String) :
    replaceDash (pyLower (replaceDash (pyLower s))) = replaceDash (pyLower s) :=
  congrArg String.mk (lr_list s.data)

/-! ## C3: bracket alias normalization -/

theorem assocGet_mem : ∀ (l : List (String × String)) (k v : String),
    assocGet l k = some v → ∃ p ∈ l, p.2 = v := by
  intro l
  induction l with
  | nil => intro k v h; simp [assocGet] at h
  | cons p tl ih =>
    intro k v h
    simp only [assocGet] at h
    by_cases hk : p.1 = k
    · rw [if_pos hk] at h
      exact ⟨p, List.mem_cons_self .., Option.some_injective _ h⟩
    · rw [if_neg hk] at h
      obtain ⟨q, hq, hqv⟩ := ih k v h
      exact ⟨q, List.mem_cons_of_mem _ hq, hqv⟩

theorem bracketMap_vals : ∀ p ∈ bracketMap,
    replaceDash (pyLower p.2) = p.2 ∧ assocGet bracketMap p.2 = none := by decide

/-- C3 (counterexample): the claim that any non-empty input maps via the alias
table or else to the *unmodified lowercase token* is false: the unrecognized
input "a-b" maps to "a/b" (dashes are replaced by slashes before the table
lookup), which is neither an alias-table hit nor the lowercase of "a-b". -/
theorem C3_cex :
    assocGet bracketMap (replaceDash (pyLower "a-b")) = none ∧
    normalizeBracket "a-b" ≠ pyLower "a-b" := by decide

/-- C3 (amended): `_normalize_bracket` is total and idempotent, and any input
maps to exactly one canonical token via the alias table, or — when the
lowercased, dash-to-slash form is not an alias-table key — to that lowercased
dash-to-slash form (not the unmodified lowercase token). -/
theorem C3_amended (x : String) :
    normalizeBracket (normalizeBracket x) = normalizeBracket x ∧
    (assocGet bracketMap (replaceDash (pyLower x)) = none →
      normalizeBracket x = replaceDash (pyLower x)) ∧
    (∀ v, assocGet bracketMap (replaceDash (pyLower x)) = some v →
      normalizeBracket x = v) := by
  refine ⟨?_, ?_, ?_⟩
  · simp only [normalizeBracket]
    cases h : assocGet bracketMap (replaceDash (pyLower x)) with
    | none =>
      simp only [h, Option.getD_none]
      rw [lr_idem, h]
      simp
    | some v =>
      simp only [h, Option.getD_some]
      obtain ⟨p, hp, hpv⟩ := assocGet_mem _ _ _ h
      have hv := bracketMap_vals p hp
      rw [hpv] at hv
      rw [hv.1, hv.2]
      simp
  · intro h
    simp only [normalizeBracket, h, Option.getD_none]
  · intro v h
    simp only [normalizeBracket, h, Option.getD_some]

/-- C3 witness: the amended theorem applied at concrete inputs. -/
theorem C3_amended_witness :
    normalizeBracket (normalizeBracket "precon") = normalizeBracket "precon" ∧
    normalizeBracket "precon" = "exhibition" ∧
    normalizeBracket "a-b" = "a/b" := by
  refine ⟨(C3_amended "precon").1, (C3_amended "precon").2.2 "exhibition" ?_, ?_⟩
  · decide
  · have h := (C3_amended "a-b").2.1 (by decide)
    rw [h]
    decide
/-! ## C4: payload locators -/

/-- C4 (counterexample): the claim that the locator tolerates *either* format
is false.  A page whose marker appears only as the inline assignment
`__NEXT_DATA__ = {...};` (valid JSON, here `null`) makes `_find_next_data`
fail with a ParsingError instead of returning the decoded value; conversely a
page carrying only the `<script id="__NEXT_DATA__">` element makes the
`_parse_average_deck` marker search fail.  Each locator handles exactly one of
the two historical formats. -/
theorem C4_cex :
    (HtmlPage.mk [] (some (.valid .null))).inlineNextData = some (.valid .null) ∧
    findNextData ⟨[], some (.valid .null)⟩ "u" =
      .error (.parsingError "Missing __NEXT_DATA__ payload" "u"
        (some "script id=__NEXT_DATA__")) ∧
    locateInlineNextData ⟨[⟨some "__NEXT_DATA__", some (.valid .null)⟩], none⟩ =
      .error (.valueError "Could not find Next.js data in deck page") :=
  ⟨rfl, rfl, rfl⟩

/-- C4 (amended): each locator handles exactly one embedded-state format.
`_find_next_data` returns the decoded JSON for the `<script id="__NEXT_DATA__">`
element format and fails with a ParsingError whose message names the missing
`__NEXT_DATA__` marker otherwise; the inline-assignment format is handled only
by `_parse_average_deck`, whose absence failure is a generic ValueError. -/
theorem C4_amended (page : HtmlPage) (url : String) (j : Json) :
    (∀ sid, page.scripts.find? (fun t => t.id == some "__NEXT_DATA__")
        = some ⟨sid, some (.valid j)⟩ → findNextData page url = .ok j) ∧
    (page.scripts.find? (fun t => t.id == some "__NEXT_DATA__") = none →
      findNextData page url = .error (.parsingError "Missing __NEXT_DATA__ payload"
        url (some "script id=__NEXT_DATA__"))) ∧
    (page.inlineNextData = some (.valid j) → locateInlineNextData page = .ok j) ∧
    (page.inlineNextData = none →
      locateInlineNextData page =
        .error (.valueError "Could not find Next.js data in deck page")) := by
  refine ⟨?_, ?_, ?_, ?_⟩
  · intro sid hs
    unfold findNextData
    rw [hs]
  · intro hs
    unfold findNextData
    rw [hs]
  · intro h
    unfold locateInlineNextData
    rw [h]
  · intro h
    unfold locateInlineNextData
    rw [h]

/-- C4 witness: the amended theorem applied to one page per format. -/
theorem C4_amended_witness :
    findNextData ⟨[⟨some "__NEXT_DATA__", some (.valid (.num 7))⟩], none⟩ "u"
      = .ok (.num 7) ∧
    locateInlineNextData ⟨[], some (.valid (.num 7))⟩ = .ok (.num 7) :=
  ⟨(C4_amended ⟨[⟨some "__NEXT_DATA__", some (.valid (.num 7))⟩], none⟩ "u"
      (.num 7)).1 (some "__NEXT_DATA__") rfl,
   (C4_amended ⟨[], some (.valid (.num 7))⟩ "u" (.num 7)).2.2.1 rfl⟩

/-! ## C5: fetcher retry policy -/

theorem requestLoop_count_le (outcomes : Nat → FetchOutcome) (r : Nat) :
    ∀ (a : Nat) (l : Option FetchFailure), (requestLoop outcomes a r l).2 ≤ r := by
  induction r with
  | zero => intro a l; simp [requestLoop]
  | succ r ih =>
    intro a l
    cases houtcome : outcomes a with
    | timeout =>
      simp only [requestLoop, houtcome]
      exact Nat.succ_le_succ (ih (a + 1) (some .timeoutErr))
    | netError =>
      simp only [requestLoop, houtcome]
      exact Nat.succ_le_succ (ih (a + 1) (some .networkErr))
    | response s b =>
      simp only [requestLoop, houtcome]
      by_cases h404 : s = 404
      · simp [h404]
      · rw [if_neg h404]
        by_cases h5 : 500 ≤ s ∧ a < RETRY_ATTEMPTS
        · rw [if_pos h5]
          exact Nat.succ_le_succ (ih (a + 1) l)
        · rw [if_neg h5]
          by_cases h4 : 400 ≤ s ∧ s < 600
          · rw [if_pos h4]
            exact Nat.succ_le_succ (ih (a + 1) (some (.unexpected s)))
          · rw [if_neg h4]
            simp

/-- C5 (counterexample): the claim that every non-2xx terminal status other
than 404 "fails with an UnexpectedStatus-style error rather than being
retried" is false: a 403 on the first attempt is retried — here the second
attempt returns 200 and the fetch *succeeds* after two GETs. -/
theorem C5_cex :
    requestAverageDeck (fun n => if n = 0 then .response 403 "x" else .response 200 "ok")
      = (.ok "ok", 2) := rfl

/-- C5 (amended): `_request_average_deck` issues at most `RETRY_ATTEMPTS + 1 = 3`
GETs; a 404 fails immediately with NotFound after exactly one GET; a status
below 400 returns the body after one GET; transport failures, 5xx *and every
other non-2xx status in [400, 600) except 404* are retried (shown by a second
attempt returning 200); a non-404 status in [400, 600) persisting across all
three GETs exhausts the retries and surfaces the "Unexpected response" error
carrying that status; three straight timeouts exhaust the retries and
surface the timeout failure. -/
theorem C5_amended (outcomes : Nat → FetchOutcome) :
    (requestAverageDeck outcomes).2 ≤ RETRY_ATTEMPTS + 1 ∧
    (∀ b, outcomes 0 = .response 404 b →
      requestAverageDeck outcomes = (.error .notFound, 1)) ∧
    (∀ s b, outcomes 0 = .response s b → s < 400 →
      requestAverageDeck outcomes = (.ok b, 1)) ∧
    (∀ s b b', outcomes 0 = .response s b → 400 ≤ s → s < 600 → s ≠ 404 →
      outcomes 1 = .response 200 b' → requestAverageDeck outcomes = (.ok b', 2)) ∧
    (∀ s b0 b1 b2, outcomes 0 = .response s b0 → outcomes 1 = .response s b1 →
      outcomes 2 = .response s b2 → 400 ≤ s → s < 600 → s ≠ 404 →
      requestAverageDeck outcomes = (.error (.unexpected s), 3)) ∧
    (outcomes 0 = .timeout → outcomes 1 = .timeout → outcomes 2 = .timeout →
      requestAverageDeck outcomes = (.error .timeoutErr, 3)) := by
  refine ⟨requestLoop_count_le outcomes _ 0 none, ?_, ?_, ?_, ?_, ?_⟩
  · intro b h
    simp [requestAverageDeck, requestLoop, h]
  · intro s b h hlt
    have h404 : ¬(s = 404) := by omega
    have h5 : ¬(500 ≤ s) := by omega
    have h4 : ¬(400 ≤ s) := by omega
    simp [requestAverageDeck, requestLoop, RETRY_ATTEMPTS, h, h404, h5, h4]
  · intro s b b' h h400 h600 h404 h1
    have e1 : ¬((200 : Nat) = 404) := by decide
    have e2 : ¬((500 : Nat) ≤ 200) := by decide
    have e3 : ¬((400 : Nat) ≤ 200) := by decide
    by_cases h5 : 500 ≤ s
    · simp [requestAverageDeck, requestLoop, RETRY_ATTEMPTS, h, h404, h5, h1,
        e1, e2, e3]
    · simp [requestAverageDeck, requestLoop, RETRY_ATTEMPTS, h, h404, h5, h400,
        h600, h1, e1, e2, e3]
  · intro s b0 b1 b2 h0 h1 h2 h400 h600 h404
    by_cases h5 : 500 ≤ s
    · simp [requestAverageDeck, requestLoop, RETRY_ATTEMPTS, h0, h1, h2, h404,
        h5, h400, h600]
    · simp [requestAverageDeck, requestLoop, RETRY_ATTEMPTS, h0, h1, h2, h404,
        h5, h400, h600]
  · intro h0 h1 h2
    simp [requestAverageDeck, requestLoop, h0, h1, h2]

/-- C5 witness: the amended theorem applied to concrete outcome sequences. -/
theorem C5_amended_witness :
    requestAverageDeck (fun _ => .response 404 "gone") = (.error .notFound, 1) ∧
    requestAverageDeck (fun _ => .response 200 "body") = (.ok "body", 1) ∧
    requestAverageDeck (fun _ => .response 403 "no") = (.error (.unexpected 403), 3) ∧
    requestAverageDeck (fun _ => .timeout) = (.error .timeoutErr, 3) :=
  ⟨(C5_amended (fun _ => .response 404 "gone")).2.1 "gone" rfl,
   (C5_amended (fun _ => .response 200 "body")).2.2.1 200 "body" rfl (by omega),
   (C5_amended (fun _ => .response 403 "no")).2.2.2.2.1 403 "no" "no" "no"
     rfl rfl rfl (by omega) (by omega) (by omega),
   (C5_amended (fun _ => .timeout)).2.2.2.2.2 rfl rfl rfl⟩

/-! ## C7: commander / deck partition -/

theorem head_filter_eq_find (p : NCard → Bool) (l : List NCard) :
    (l.filter p).head? = l.find? p := by
  induction l with
  | nil => rfl
  | cons c l ih =>
    by_cases h : p c
    · simp [List.filter_cons, h, List.find?_cons_of_pos _ h]
    · have hb : p c = false := by simpa using h
      simp [List.filter_cons, hb, List.find?_cons_of_neg, ih]

/-- C7 (counterexample): the claim that `deckCards` is "the remainder of the
merged list — all merged entries other than that one commander" is false when
more than one merged entry is flagged as commander: with two flagged entries
the code puts *neither* non-chosen entry into `deckCards` (it keeps only the
unflagged entries), so the second flagged entry is dropped entirely, while the
claimed remainder still contains it. -/
theorem C7_cex :
    partitionDeck [⟨"A", 1, true⟩, ⟨"B", 1, true⟩] = (some ⟨"A", 1, true⟩, []) ∧
    ([⟨"A", 1, true⟩, ⟨"B", 1, true⟩] : List NCard).erase ⟨"A", 1, true⟩
      = [⟨"B", 1, true⟩] := by
  refine ⟨rfl, by decide⟩

/-- C7 (amended): `commanderCard` is the first merged entry whose commander
flag is set (none when no entry is flagged), and `deckCards` is the
subsequence of merged entries whose flag is false, in original order; flagged
entries other than the first appear in neither component. -/
theorem C7_amended (cards : List NCard) :
    (partitionDeck cards).1 = cards.find? (fun c => c.isCommander) ∧
    (partitionDeck cards).2 = cards.filter (fun c => !c.isCommander) ∧
    (partitionDeck cards).2.Sublist cards :=
  ⟨head_filter_eq_find _ _, rfl, List.filter_sublist _⟩

/-! ## C1: quantity-annotation rejection -/

/-- C1 (counterexample): "2 Forest" matches `^\d+\s+[A-Za-z]`, yet the card
name-producing paths do treat it as a card name in two places: the
`card.name` fast path of `is_card_like` accepts an object whose only
producible name is "2 Forest" without applying the pattern check, and the
`names`-array fallback of `_normalize_card_entry` produces the card name
"2 Forest" without applying the pattern check. -/
theorem C1_cex :
    qtyAnnot "2 Forest" = true ∧
    isCardLike (.obj (.cons "card" (.obj (.cons "name" (.str "2 Forest") .nil)) .nil))
      = true ∧
    normalizeCardEntry (.obj (.cons "names" (.arr (.cons (.str "2 Forest") .nil)) .nil))
      = some ⟨"2 Forest", 1, false⟩ :=
  ⟨rfl, rfl, rfl⟩

/-- C1 (amended): string elements matching the quantity pattern are rejected
by both `is_card_like` and `_normalize_card_entry`; an object whose
highest-priority name key `name` holds a pattern-matching string is rejected
by `is_card_like` (when the `card.name` fast path does not fire) and by
`_normalize_card_entry` (lookup in the card-merged source); but the
`card.name` fast path and the `names`-array fallback perform no pattern
check. -/
theorem C1_amended (s : String) (kvs : JsonObj) :
    (qtyAnnot (pyStrip s) = true →
      isCardLike (.str s) = false ∧ normalizeCardEntry (.str s) = none) ∧
    (cardNameFast kvs = false → kvs.get "name" = some (.str s) →
      qtyAnnot (pyStrip s) = true → isCardLike (.obj kvs) = false) ∧
    (sourceGet kvs "name" = some (.str s) → pyStrip s ≠ "" →
      qtyAnnot (pyStrip s) = true → normalizeCardEntry (.obj kvs) = none) := by
  refine ⟨?_, ?_, ?_⟩
  · intro h
    constructor
    · simp [isCardLike, h]
    · simp [normalizeCardEntry, h]
  · intro hcf hname h
    simp [isCardLike, hcf, firstStringVal, hname, h]
  · intro hget hne h
    have hf : findEntryName kvs ["name", "cardName", "card_name", "label", "title"]
        = .rejected := by
      simp [findEntryName, hget, hne, h]
    simp [normalizeCardEntry, hf]

/-- C1 witness: the amended theorem applied at "2 Forest". -/
theorem C1_amended_witness :
    isCardLike (.str "2 Forest") = false ∧
    normalizeCardEntry (.str "2 Forest") = none ∧
    isCardLike (.obj (.cons "name" (.str "2 Forest") .nil)) = false ∧
    normalizeCardEntry (.obj (.cons "name" (.str "2 Forest") .nil)) = none :=
  ⟨((C1_amended "2 Forest" .nil).1 (by decide)).1,
   ((C1_amended "2 Forest" .nil).1 (by decide)).2,
   (C1_amended "2 Forest" (.cons "name" (.str "2 Forest") .nil)).2.1 rfl rfl (by decide),
   (C1_amended "2 Forest" (.cons "name" (.str "2 Forest") .nil)).2.2 rfl
     (by decide) (by decide)⟩

/-! ## C6: no qualifying array anywhere means "not found" -/

theorem anyP_not_allP : ∀ (xs : JsonList),
    xs.anyP (fun e => !isCardLike e) = true → xs.allP isCardLike = false
  | .nil, h => by simp [JsonList.anyP] at h
  | .cons x xs, h => by
    simp only [JsonList.anyP, Bool.or_eq_true, Bool.not_eq_true'] at h
    simp only [JsonList.allP, Bool.and_eq_false_iff]
    cases h with
    | inl h => exact Or.inl h
    | inr h => exact Or.inr (anyP_not_allP xs h)

mutual

theorem walk_eq_nil : ∀ (j : Json), allArraysDisq j = true → walk j = []
  | .null, _ => rfl
  | .boolean _, _ => rfl
  | .num _, _ => rfl
  | .str _, _ => rfl
  | .arr xs, h => by
    simp only [allArraysDisq, Bool.and_eq_true] at h
    have hall : xs.allP isCardLike = false := anyP_not_allP xs h.1
    simp only [walk, hall, Bool.and_false, if_false]
    exact walkList_eq_nil xs h.2
  | .obj kvs, h => by
    simp only [allArraysDisq] at h
    simp only [walk]
    exact walkObj_eq_nil kvs h

theorem walkList_eq_nil : ∀ (xs : JsonList), allArraysDisqList xs = true → walkList xs = []
  | .nil, _ => rfl
  | .cons x xs, h => by
    simp only [allArraysDisqList, Bool.and_eq_true] at h
    simp only [walkList, walk_eq_nil x h.1, walkList_eq_nil xs h.2, List.nil_append]

theorem walkObj_eq_nil : ∀ (kvs : JsonObj), allArraysDisqObj kvs = true → walkObj kvs = []
  | .nil, _ => rfl
  | .cons _ v tl, h => by
    simp only [allArraysDisqObj, Bool.and_eq_true] at h
    simp only [walkObj, walk_eq_nil v h.1, walkObj_eq_nil tl h.2, List.nil_append]

end

/-- C6: for every JSON payload in which every array (anywhere) has at least
one element that is not card-like — so no array's elements all qualify —
`deep_find_cards` returns the "not found" value `none`: no error and no
partial or incorrect list. -/
theorem C6_no_qualifying_array (j : Json) (h : allArraysDisq j = true) :
    deepFindCards j = none := by
  simp [deepFindCards, walk_eq_nil j h]

/-- C6 witness: a mixed array with one disqualifying element ("2 Forest"). -/
theorem C6_witness :
    allArraysDisq (.arr (.cons (.str "2 Forest") (.cons (.str "Sol Ring") .nil)))
      = true ∧
    deepFindCards (.arr (.cons (.str "2 Forest") (.cons (.str "Sol Ring") .nil)))
      = none :=
  ⟨by decide, C6_no_qualifying_array _ (by decide)⟩

/-! ## C10: the finder never returns an empty list -/

mutual

theorem walk_mem_nonnil : ∀ (j : Json), (walk j).all (fun l => !l.isNil) = true
  | .null => rfl
  | .boolean _ => rfl
  | .num _ => rfl
  | .str _ => rfl
  | .arr xs => by
    by_cases h : (!xs.isNil && xs.allP isCardLike) = true
    · simp only [walk, h, if_true]
      simp only [List.all_cons, List.all_nil, Bool.and_true]
      simp only [Bool.and_eq_true] at h
      exact h.1
    · have hb : (!xs.isNil && xs.allP isCardLike) = false := by
        exact Bool.not_eq_true _ ▸ Bool.eq_false_iff.mpr h
      simp only [walk, hb, if_false]
      exact walkList_mem_nonnil xs
  | .obj kvs => by
    simp only [walk]
    exact walkObj_mem_nonnil kvs

theorem walkList_mem_nonnil : ∀ (xs : JsonList),
    (walkList xs).all (fun l => !l.isNil) = true
  | .nil => rfl
  | .cons x xs => by
    simp only [walkList, List.all_append, Bool.and_eq_true]
    exact ⟨walk_mem_nonnil x, walkList_mem_nonnil xs⟩

theorem walkObj_mem_nonnil : ∀ (kvs : JsonObj),
    (walkObj kvs).all (fun l => !l.isNil) = true
  | .nil => rfl
  | .cons _ v tl => by
    simp only [walkObj, List.all_append, Bool.and_eq_true]
    exact ⟨walk_mem_nonnil v, walkObj_mem_nonnil tl⟩

end

/-- C10: `deep_find_cards` never returns an empty list — whenever it returns
`some cards`, `cards` is non-empty, because only non-empty arrays (with every
element card-like) are ever recorded. -/
theorem C10_some_nonempty (j : Json) (xs : List Json)
    (h : deepFindCards j = some xs) : xs ≠ [] := by
  unfold deepFindCards at h
  by_cases he : (walk j).isEmpty
  · simp [he] at h
  · simp only [he, if_false] at h
    obtain ⟨l, ls, hw⟩ : ∃ l ls, walk j = l :: ls := by
      cases hwj : walk j with
      | nil => rw [hwj] at he; simp at he
      | cons l ls => exact ⟨l, ls, rfl⟩
    have hall := walk_mem_nonnil j
    rw [hw] at hall
    simp only [List.all_cons, Bool.and_eq_true] at hall
    have hl : l ≠ .nil := by
      intro hnil
      rw [hnil] at hall
      simp [JsonList.isNil] at hall
    rw [hw] at h
    cases l with
    | nil => exact absurd rfl hl
    | cons y ys =>
      simp only [List.map_cons, List.flatten_cons, JsonList.toList] at h
      intro hxs
      rw [hxs] at h
      simp at h

/-- C10 witness: a payload on which the finder returns a list. -/
theorem C10_witness :
    deepFindCards (.arr (.cons (.str "Sol Ring") .nil)) = some [.str "Sol Ring"] ∧
    ([Json.str "Sol Ring"] : List Json) ≠ [] :=
  ⟨rfl, C10_some_nonempty (.arr (.cons (.str "Sol Ring") .nil)) [.str "Sol Ring"] rfl⟩

/-! ## C2: merge by lowercase-name key -/

theorem insertCard_map_key (acc : List NCard) (c : NCard) :
    (insertCard acc c).map cardKey =
      if cardKey c ∈ acc.map cardKey then acc.map cardKey
      else acc.map cardKey ++ [cardKey c] := by
  unfold insertCard
  by_cases h : acc.any (fun d => cardKey d == cardKey c) = true
  · rw [if_pos h]
    have hmem : cardKey c ∈ acc.map cardKey := by
      simp only [List.any_eq_true, beq_iff_eq] at h
      obtain ⟨d, hd, hdk⟩ := h
      exact hdk ▸ List.mem_map_of_mem _ hd
    rw [if_pos hmem, List.map_map]
    apply List.map_congr_left
    intro d _
    by_cases hdc : cardKey d = cardKey c
    · simp only [Function.comp_apply, if_pos hdc]
      rfl
    · simp only [Function.comp_apply, if_neg hdc]
  · rw [if_neg h]
    have hmem : cardKey c ∉ acc.map cardKey := by
      simp only [List.any_eq_true, beq_iff_eq] at h
      intro hm
      obtain ⟨d, hd, hdk⟩ := List.mem_map.mp hm
      exact h ⟨d, hd, hdk⟩
    rw [if_neg hmem, List.map_append, List.map_singleton]

theorem firstKeysFrom_congr : ∀ (ks seen seen' : List String),
    (∀ x, x ∈ seen ↔ x ∈ seen') → firstKeysFrom seen ks = firstKeysFrom seen' ks
  | [], _, _, _ => rfl
  | k :: ks, seen, seen', h => by
    simp only [firstKeysFrom]
    by_cases hk : k ∈ seen
    · rw [if_pos hk, if_pos ((h k).mp hk)]
      exact firstKeysFrom_congr ks seen seen' h
    · rw [if_neg hk, if_neg (fun hx => hk ((h k).mpr hx))]
      have h' : ∀ x, x ∈ k :: seen ↔ x ∈ k :: seen' := by
        intro x
        simp only [List.mem_cons]
        exact or_congr Iff.rfl (h x)
      rw [firstKeysFrom_congr ks (k :: seen) (k :: seen') h']

theorem mergeGo_keys : ∀ (cards : List NCard) (acc : List NCard),
    (cards.foldl insertCard acc).map cardKey =
      acc.map cardKey ++ firstKeysFrom (acc.map cardKey) (cards.map cardKey)
  | [], acc => by simp [firstKeysFrom]
  | c :: cards, acc => by
    simp only [List.foldl_cons, List.map_cons, firstKeysFrom]
    rw [mergeGo_keys cards (insertCard acc c), insertCard_map_key]
    by_cases h : cardKey c ∈ acc.map cardKey
    · rw [if_pos h, if_pos h]
    · rw [if_neg h, if_neg h, List.append_assoc, List.singleton_append]
      have h' : ∀ x, x ∈ acc.map cardKey ++ [cardKey c] ↔ x ∈ cardKey c :: acc.map cardKey := by
        intro x
        simp only [List.mem_append, List.mem_singleton, List.mem_cons]
        tauto
      rw [firstKeysFrom_congr _ _ _ h']

theorem mem_firstKeysFrom_not_seen : ∀ (ks seen : List String) (x : String),
    x ∈ firstKeysFrom seen ks → x ∉ seen
  | [], _, x, h => by simp [firstKeysFrom] at h
  | k :: ks, seen, x, h => by
    simp only [firstKeysFrom] at h
    by_cases hk : k ∈ seen
    · rw [if_pos hk] at h
      exact mem_firstKeysFrom_not_seen ks seen x h
    · rw [if_neg hk] at h
      rcases List.mem_cons.mp h with h | h
      · exact h ▸ hk
      · have := mem_firstKeysFrom_not_seen ks (k :: seen) x h
        exact fun hx => this (List.mem_cons_of_mem _ hx)

theorem firstKeysFrom_nodup : ∀ (ks seen : List String), (firstKeysFrom seen ks).Nodup
  | [], _ => List.nodup_nil
  | k :: ks, seen => by
    simp only [firstKeysFrom]
    by_cases hk : k ∈ seen
    · rw [if_pos hk]
      exact firstKeysFrom_nodup ks seen
    · rw [if_neg hk]
      refine List.nodup_cons.mpr ⟨?_, firstKeysFrom_nodup ks (k :: seen)⟩
      intro hmem
      exact mem_firstKeysFrom_not_seen ks (k :: seen) k hmem (List.mem_cons_self ..)

theorem merge_pair (c1 c2 : NCard) (h : cardKey c1 = cardKey c2) :
    mergeCards [c1, c2]
      = [⟨c1.name, c1.qty + c2.qty, c1.isCommander || c2.isCommander⟩] := by
  simp [mergeCards, insertCard, h]

/-- C2: merging deduplicates by the lowercase-name key, preserving first-seen
order: the key sequence of the merged result is the first-seen dedup of the
input key sequence, no two merged records share a key, and two entries whose
names agree up to case merge into exactly one record carrying the summed
quantity and OR-ed commander flag (and the first entry's name). -/
theorem C2_merge (cards : List NCard) (c1 c2 : NCard) :
    (mergeCards cards).map cardKey = firstKeysFrom [] (cards.map cardKey) ∧
    (mergeCards cards).Pairwise (fun a b => cardKey a ≠ cardKey b) ∧
    (cardKey c1 = cardKey c2 →
      mergeCards [c1, c2]
        = [⟨c1.name, c1.qty + c2.qty, c1.isCommander || c2.isCommander⟩]) := by
  have hkeys : (mergeCards cards).map cardKey = firstKeysFrom [] (cards.map cardKey) := by
    have := mergeGo_keys cards []
    simpa [mergeCards] using this
  refine ⟨hkeys, ?_, merge_pair c1 c2⟩
  have hnd : ((mergeCards cards).map cardKey).Nodup := by
    rw [hkeys]
    exact firstKeysFrom_nodup _ _
  rw [List.Nodup, List.pairwise_map] at hnd
  exact hnd

/-- C2 witness: the merge theorem applied to the two case-variant Sol Ring
entries of the spec's scenario. -/
theorem C2_merge_witness :
    mergeCards [⟨"Sol Ring", 1, false⟩, ⟨"sol ring", 1, true⟩]
      = [⟨"Sol Ring", 2, true⟩] := by
  have h := (C2_merge [] ⟨"Sol Ring", 1, false⟩ ⟨"sol ring", 1, true⟩).2.2 (by decide)
  exact h.trans (by decide)

/-! ## C8: bracket discovery -/

theorem addToken_mem (avail : List String) (s t : String) :
    t ∈ addToken avail s ↔ t ∈ avail ∨ t = s := by
  unfold addToken
  by_cases hs : s ∈ avail
  · rw [if_pos hs]
    constructor
    · exact Or.inl
    · rintro (h | rfl)
      · exact h
      · exact hs
  · rw [if_neg hs]
    simp [List.mem_append]

theorem findGo_found (norm : String) : ∀ (ls : List DeckLink) (avail : List String)
    (l : DeckLink), ls.find? (fun x => linkBracket x == norm) = some l →
    ∃ av, findGo norm ls avail = (some (deckUrl l, av), av)
  | [], _, l, h => by simp at h
  | x :: ls, avail, l, h => by
    by_cases hx : linkBracket x = norm
    · rw [List.find?_cons_of_pos _ (by simpa using hx)] at h
      have hxl : x = l := by simpa using h
      subst hxl
      refine ⟨addToken avail (impliedToken x), ?_⟩
      simp only [findGo]
      rw [if_pos hx]
    · rw [List.find?_cons_of_neg _ (by simpa using hx)] at h
      obtain ⟨av, hav⟩ := findGo_found norm ls (addToken avail (impliedToken x)) l h
      refine ⟨av, ?_⟩
      simp only [findGo]
      rw [if_neg hx]
      exact hav

theorem findGo_none (norm : String) : ∀ (ls : List DeckLink) (avail : List String),
    ls.find? (fun x => linkBracket x == norm) = none →
    (findGo norm ls avail).1 = none ∧
    (∀ t, t ∈ (findGo norm ls avail).2 ↔ t ∈ avail ∨ ∃ l ∈ ls, impliedToken l = t)
  | [], avail, _ => ⟨rfl, by simp [findGo]⟩
  | x :: ls, avail, h => by
    rw [List.find?_eq_none] at h
    have hx : ¬ linkBracket x = norm := by
      have := h x (List.mem_cons_self ..)
      simpa using this
    have hrest : ls.find? (fun x => linkBracket x == norm) = none := by
      rw [List.find?_eq_none]
      intro y hy
      exact h y (List.mem_cons_of_mem _ hy)
    have IH := findGo_none norm ls (addToken avail (impliedToken x)) hrest
    constructor
    · simp only [findGo]
      rw [if_neg hx]
      exact IH.1
    · intro t
      simp only [findGo]
      rw [if_neg hx, IH.2 t, addToken_mem]
      constructor
      · rintro ((h1 | h1) | ⟨l, hl, h1⟩)
        · exact Or.inl h1
        · exact Or.inr ⟨x, List.mem_cons_self .., h1.symm⟩
        · exact Or.inr ⟨l, List.mem_cons_of_mem _ hl, h1⟩
      · rintro (h1 | ⟨l, hl, h1⟩)
        · exact Or.inl (Or.inl h1)
        · rcases List.mem_cons.mp hl with rfl | hl
          · exact Or.inl (Or.inr h1.symm)
          · exact Or.inr ⟨l, hl, h1⟩

/-- C8 (counterexample): the claim compares the *implied bracket token* ("all"
for a bare link) against the normalized request, but the code compares the
joined trailing segments (the empty string for a bare link).  Requested
bracket "all" normalizes to ""; no link's implied token equals "", so by the
claim the first link should be returned as fallback — yet the code returns
the *second* (bare) link as an exact match. -/
theorem C8_cex :
    normalizeBracket "all" = "" ∧
    impliedToken ⟨"cmd", []⟩ = "all" ∧
    findAverageDeckUrl [⟨"cmd", ["core"]⟩, ⟨"cmd", []⟩] "all"
      = (some "https://edhrec.com/average-decks/cmd", ["core", "all"]) ∧
    (∀ l ∈ [DeckLink.mk "cmd" ["core"], ⟨"cmd", []⟩],
      impliedToken l ≠ normalizeBracket "all") := by
  exact ⟨rfl, rfl, rfl, by decide⟩

/-- C8 (amended): the match is on the joined trailing segments
(`link_bracket`, the empty string for a bare link), not on the implied token:
the first link whose joined segments equal the normalized requested bracket is
returned; when no such link exists, the first discovered link is returned
together with the full set of implied tokens of all links. -/
theorem C8_amended (first : DeckLink) (rest : List DeckLink) (bracket : String) :
    (∀ l, (first :: rest).find?
        (fun x => linkBracket x == normalizeBracket bracket) = some l →
      (findAverageDeckUrl (first :: rest) bracket).1 = some (deckUrl l)) ∧
    ((first :: rest).find?
        (fun x => linkBracket x == normalizeBracket bracket) = none →
      (findAverageDeckUrl (first :: rest) bracket).1 = some (deckUrl first) ∧
      ∀ t, t ∈ (findAverageDeckUrl (first :: rest) bracket).2 ↔
        ∃ l ∈ first :: rest, impliedToken l = t) := by
  constructor
  · intro l h
    obtain ⟨av, hav⟩ := findGo_found (normalizeBracket bracket) (first :: rest) [] l h
    simp [findAverageDeckUrl, hav]
  · intro h
    have IH := findGo_none (normalizeBracket bracket) (first :: rest) [] h
    have hgo : findGo (normalizeBracket bracket) (first :: rest) []
        = (none, (findGo (normalizeBracket bracket) (first :: rest) []).2) := by
      rw [← IH.1]
    constructor
    · rw [findAverageDeckUrl]
      rw [hgo]
    · intro t
      rw [findAverageDeckUrl]
      rw [hgo]
      have := IH.2 t
      simpa using this

/-- C8 witness: the amended theorem applied to a matching and a non-matching
link list (requested bracket "3" normalizes to "upgraded"). -/
theorem C8_amended_witness :
    (findAverageDeckUrl [⟨"cmd", ["upgraded"]⟩] "3").1
      = some "https://edhrec.com/average-decks/cmd/upgraded" ∧
    (findAverageDeckUrl [⟨"cmd", ["core"]⟩] "3").1
      = some "https://edhrec.com/average-decks/cmd/core" ∧
    ("core" ∈ (findAverageDeckUrl [⟨"cmd", ["core"]⟩] "3").2 ↔ True) := by
  refine ⟨?_, ?_, ?_⟩
  · have h := (C8_amended ⟨"cmd", ["upgraded"]⟩ [] "3").1 ⟨"cmd", ["upgraded"]⟩ (by decide)
    exact h.trans (by decide)
  · have h := ((C8_amended ⟨"cmd", ["core"]⟩ [] "3").2 (by decide)).1
    exact h.trans (by decide)
  · have h := (((C8_amended ⟨"cmd", ["core"]⟩ [] "3").2 (by decide)).2 "core")
    simp only [iff_true]
    rw [h]
    exact ⟨⟨"cmd", ["core"]⟩, by decide, by decide⟩

/-! ## C9: tag normalization invariants -/

theorem dropWhile_length_le (p : Char → Bool) : ∀ (l : List Char),
    (l.dropWhile p).length ≤ l.length
  | [] => Nat.le_refl _
  | c :: l => by
    rw [List.dropWhile_cons]
    by_cases h : p c
    · rw [if_pos h]
      exact (dropWhile_length_le p l).trans (Nat.le_succ _)
    · rw [if_neg h]

theorem stripChars_length_le (cs : List Char) : (stripChars cs).length ≤ cs.length := by
  unfold stripChars
  rw [List.length_reverse]
  calc ((cs.dropWhile isSpaceChar).reverse.dropWhile isSpaceChar).length
      ≤ (cs.dropWhile isSpaceChar).reverse.length := dropWhile_length_le _ _
    _ = (cs.dropWhile isSpaceChar).length := List.length_reverse _
    _ ≤ cs.length := dropWhile_length_le _ _

theorem dropOrdinal_length_le (cs : List Char) : (dropOrdinal cs).length ≤ cs.length := by
  unfold dropOrdinal
  by_cases hd : (cs.takeWhile isDigitChar).isEmpty
  · rw [if_pos hd]
  · rw [if_neg hd]
    cases hr : cs.dropWhile isDigitChar with
    | nil => exact Nat.le_refl _
    | cons c r2 =>
      dsimp only
      by_cases hc : c = '.'
      · rw [if_pos hc]
        have h1 : r2.length + 1 = (cs.dropWhile isDigitChar).length := by
          rw [hr]
          rfl
        have h2 : (cs.dropWhile isDigitChar).length ≤ cs.length :=
          dropWhile_length_le _ _
        have := dropWhile_length_le isSpaceChar r2
        omega
      · rw [if_neg hc]

theorem dropCount_length_le (cs : List Char) : (dropCount cs).length ≤ cs.length := by
  unfold dropCount
  cases hr : cs.reverse with
  | nil => exact Nat.le_refl _
  | cons c r1 =>
    dsimp only
    by_cases hc : c = ')'
    · rw [if_pos hc]
      by_cases hd : (r1.takeWhile isDigitChar).isEmpty
      · rw [if_pos hd]
      · rw [if_neg hd]
        cases hr2 : r1.dropWhile isDigitChar with
        | nil => exact Nat.le_refl _
        | cons c2 r3 =>
          dsimp only
          by_cases hc2 : c2 = '('
          · rw [if_pos hc2]
            by_cases hsp : (r3.takeWhile isSpaceChar).isEmpty
            · rw [if_pos hsp]
            · rw [if_neg hsp]
              have hlen1 : r1.length + 1 = cs.length := by
                have := congrArg List.length hr
                rw [List.length_reverse] at this
                simp only [List.length_cons] at this
                omega
              have hlen2 : (r1.dropWhile isDigitChar).length ≤ r1.length :=
                dropWhile_length_le _ _
              have hlen3 : r3.length + 1 = (r1.dropWhile isDigitChar).length := by
                rw [hr2]
                rfl
              have hlen4 : (r3.dropWhile isSpaceChar).length ≤ r3.length :=
                dropWhile_length_le _ _
              rw [List.length_reverse]
              omega
          · rw [if_neg hc2]
    · rw [if_neg hc]

theorem normalizeTagName_length {s t : String} (h : normalizeTagName s = some t) :
    t.length ≤ 64 := by
  unfold normalizeTagName at h
  by_cases he : s = ""
  · rw [if_pos he] at h
    exact absurd h (by simp)
  · rw [if_neg he] at h
    simp only at h
    set n1 := stripChars s.toList with hn1
    set n2 := if n1.length > MAX_TAG_LENGTH then n1.take MAX_TAG_LENGTH else n1 with hn2
    set n4 := stripChars (dropCount (dropOrdinal n2)) with hn4
    by_cases h4 : n4.isEmpty
    · rw [if_pos h4] at h
      exact absurd h (by simp)
    · rw [if_neg h4] at h
      have ht : t = String.mk n4 := (Option.some_injective _ h).symm
      have hlen2 : n2.length ≤ 64 := by
        rw [hn2]
        by_cases hgt : n1.length > MAX_TAG_LENGTH
        · rw [if_pos hgt]
          have := List.length_take_le MAX_TAG_LENGTH n1
          simp only [MAX_TAG_LENGTH] at this
          exact this
        · rw [if_neg hgt]
          have := Nat.le_of_not_lt hgt
          simp only [MAX_TAG_LENGTH] at this
          exact this
      have hlen4 : n4.length ≤ n2.length := by
        rw [hn4]
        calc (stripChars (dropCount (dropOrdinal n2))).length
            ≤ (dropCount (dropOrdinal n2)).length := stripChars_length_le _
          _ ≤ (dropOrdinal n2).length := dropCount_length_le _
          _ ≤ n2.length := dropOrdinal_length_le _
      rw [ht]
      show n4.length ≤ 64
      omega

theorem normTagsGo_mem : ∀ (ts seen : List String) (t : String),
    t ∈ normTagsGo seen ts →
      (∃ r ∈ ts, normalizeTagName r = some t) ∧
      pyLower t ∉ structuralTagNames ∧ pyLower t ∉ seen
  | [], _, t, h => by simp [normTagsGo] at h
  | r :: ts, seen, t, h => by
    simp only [normTagsGo] at h
    cases hn : normalizeTagName r with
    | none =>
      rw [hn] at h
      obtain ⟨⟨x, hx, hx2⟩, h2, h3⟩ := normTagsGo_mem ts seen t h
      exact ⟨⟨x, List.mem_cons_of_mem _ hx, hx2⟩, h2, h3⟩
    | some name =>
      rw [hn] at h
      dsimp only at h
      by_cases hskip : pyLower name ∈ seen ∨ pyLower name ∈ structuralTagNames
      · rw [if_pos hskip] at h
        obtain ⟨⟨x, hx, hx2⟩, h2, h3⟩ := normTagsGo_mem ts seen t h
        exact ⟨⟨x, List.mem_cons_of_mem _ hx, hx2⟩, h2, h3⟩
      · rw [if_neg hskip] at h
        push_neg at hskip
        rcases List.mem_cons.mp h with rfl | h
        · exact ⟨⟨r, List.mem_cons_self .., hn⟩, hskip.2, hskip.1⟩
        · obtain ⟨⟨x, hx, hx2⟩, h2, h3⟩ := normTagsGo_mem ts (pyLower name :: seen) t h
          exact ⟨⟨x, List.mem_cons_of_mem _ hx, hx2⟩, h2,
            fun hc => h3 (List.mem_cons_of_mem _ hc)⟩

theorem normTagsGo_pairwise : ∀ (ts seen : List String),
    (normTagsGo seen ts).Pairwise (fun a b => pyLower a ≠ pyLower b)
  | [], _ => List.Pairwise.nil
  | r :: ts, seen => by
    simp only [normTagsGo]
    cases hn : normalizeTagName r with
    | none => exact normTagsGo_pairwise ts seen
    | some name =>
      dsimp only
      by_cases hskip : pyLower name ∈ seen ∨ pyLower name ∈ structuralTagNames
      · rw [if_pos hskip]
        exact normTagsGo_pairwise ts seen
      · rw [if_neg hskip]
        refine List.Pairwise.cons ?_ (normTagsGo_pairwise ts (pyLower name :: seen))
        intro b hb
        have h3 := (normTagsGo_mem ts (pyLower name :: seen) b hb).2.2
        intro hEq
        exact h3 (hEq ▸ List.mem_cons_self ..)

theorem normTagsGo_sublist : ∀ (ts seen : List String),
    (normTagsGo seen ts).Sublist (ts.filterMap normalizeTagName)
  | [], _ => List.Sublist.refl _
  | r :: ts, seen => by
    simp only [normTagsGo]
    cases hn : normalizeTagName r with
    | none =>
      rw [List.filterMap_cons_none hn]
      exact normTagsGo_sublist ts seen
    | some name =>
      rw [List.filterMap_cons_some hn]
      dsimp only
      by_cases hskip : pyLower name ∈ seen ∨ pyLower name ∈ structuralTagNames
      · rw [if_pos hskip]
        exact (normTagsGo_sublist ts seen).cons _
      · rw [if_neg hskip]
        exact (normTagsGo_sublist ts (pyLower name :: seen)).cons₂ _

theorem dedupFirstAux_sublist : ∀ (l seen : List String),
    (dedupFirstAux seen l).Sublist l
  | [], _ => List.Sublist.refl _
  | x :: xs, seen => by
    simp only [dedupFirstAux]
    by_cases hx : x ∈ seen
    · rw [if_pos hx]
      exact (dedupFirstAux_sublist xs seen).cons _
    · rw [if_neg hx]
      exact (dedupFirstAux_sublist xs (x :: seen)).cons₂ _

theorem dedupFirst_sublist (l : List String) : (dedupFirst l).Sublist l :=
  dedupFirstAux_sublist l []

/-- C9: the normalized, capped tag list of `fetch_commander_summary` contains
no name longer than 64 characters, no name whose lower-case form is in the
structural deny-list, no two names equal up to case; it is a subsequence of
the successfully-normalized raw labels (first-seen order preserved) and holds
at most 20 entries. -/
theorem C9_tags (raw : List String) :
    (uniqueTags raw).length ≤ 20 ∧
    (∀ t ∈ uniqueTags raw, t.length ≤ 64) ∧
    (∀ t ∈ uniqueTags raw, pyLower t ∉ structuralTagNames) ∧
    (uniqueTags raw).Pairwise (fun a b => pyLower a ≠ pyLower b) ∧
    (uniqueTags raw).Sublist (raw.filterMap normalizeTagName) := by
  have hsub : (uniqueTags raw).Sublist (normalizeCommanderTags raw) :=
    (List.take_sublist _ _).trans (dedupFirst_sublist _)
  refine ⟨List.length_take_le _ _, ?_, ?_, ?_, ?_⟩
  · intro t ht
    obtain ⟨⟨r, _, hr⟩, _, _⟩ :=
      normTagsGo_mem raw [] t (hsub.subset ht)
    exact normalizeTagName_length hr
  · intro t ht
    exact (normTagsGo_mem raw [] t (hsub.subset ht)).2.1
  · exact (normTagsGo_pairwise raw []).sublist hsub
  · exact hsub.trans (normTagsGo_sublist raw [])

/-- C9 witness: the tag theorem applied to the spec's scenario labels. -/
theorem C9_tags_witness :
    ("Aristocrats" : String).length ≤ 64 ∧
    pyLower "Aristocrats" ∉ structuralTagNames ∧
    (uniqueTags ["Aristocrats (482)", "Top Cards", "Tokens"]).length ≤ 20 :=
  ⟨(C9_tags ["Aristocrats (482)", "Top Cards", "Tokens"]).2.1 "Aristocrats" (by decide),
   (C9_tags ["Aristocrats (482)", "Top Cards", "Tokens"]).2.2.1 "Aristocrats" (by decide),
   (C9_tags ["Aristocrats (482)", "Top Cards", "Tokens"]).1⟩
